import Mathlib

/-!
Verification development for the smart-librarian retrieval core.

The Python modules `src/ingest.py` and `src/vector_store.py` are embedded
shallowly: Python strings are Lean strings (sequences of code points, so
Python `len` agrees with `String.length`); Python lists are Lean lists;
Python floats are modelled as exact rationals; code that can raise returns
`Except`.  Unicode-aware pieces of the CPython runtime (`str.strip`,
`str.lower`, the regexes `\w+` and the sentence splitter) are modelled with
Lean's character predicates `Char.isWhitespace`, `Char.toLower`,
`Char.isAlphanum`; the properties under study are insensitive to the
difference.  Inside the chunker, strings are manipulated as `List Char`
(converted back to `String` at the API boundary) so that length reasoning
can use the list lemmas.
-/

/-- Python `str.strip` on a list of code points: drop leading and trailing
whitespace. -/
def stripL (s : List Char) : List Char :=
  ((s.dropWhile Char.isWhitespace).reverse.dropWhile Char.isWhitespace).reverse

/-- Python `str.strip`. -/
def pyStrip (s : String) : String := String.mk (stripL s.toList)

/-- Python `str.lower` (ASCII case folding). -/
def pyLower (s : String) : String := String.mk (s.toList.map Char.toLower)

/-- Python `s.split(",")` on a list of code points: split at every comma,
keeping empty pieces (`"".split(",") == [""]`). -/
def splitCommaL : List Char → List (List Char)
  | [] => [[]]
  | c :: cs =>
    if c = ',' then [] :: splitCommaL cs
    else
      match splitCommaL cs with
      | h :: t => (c :: h) :: t
      | [] => [[c]]

/-- Python `s.split(",")`. -/
def pySplitComma (s : String) : List String := (splitCommaL s.toList).map String.mk

/-- Contiguous-sublist test on code-point lists. -/
def pySubstrL : List Char → List Char → Bool
  | needle, [] => needle.isEmpty
  | needle, c :: cs => needle.isPrefixOf (c :: cs) || pySubstrL needle cs

/-- Python `needle in hay` on strings: contiguous substring test.  The empty
string is a substring of everything, as in Python. -/
def pySubstr (needle hay : String) : Bool :=
  pySubstrL needle.toList hay.toList

/-- The characters the sentence-splitting regex of `ingest.py` looks behind
for: `SENT_SPLIT = re.compile(r'(?<=[\.\!\?\:])\s+')`. -/
def isSentTerm (c : Char) : Bool := c = '.' || c = '!' || c = '?' || c = ':'

/-- Worker for `SENT_SPLIT.split`: scan the text; at each whitespace run whose
preceding character is a sentence terminator, end the current segment (held
reversed in `cur`) and skip the rest of the run (`skip` mode, entered with an
empty `cur`). -/
def sentSplitAux : Bool → List Char → List Char → List (List Char)
  | _, cur, [] => [cur.reverse]
  | skip, cur, c :: cs =>
    if skip && c.isWhitespace then sentSplitAux true cur cs
    else if !skip && c.isWhitespace &&
        (match cur with | p :: _ => isSentTerm p | [] => false) then
      cur.reverse :: sentSplitAux true [] cs
    else
      sentSplitAux false (c :: cur) cs

/-- `re.split(SENT_SPLIT, text)` from `ingest.py`. -/
def sentSplit (text : List Char) : List (List Char) := sentSplitAux false [] text

/-- One iteration of the sentence loop of `ingest.chunk_text` (the body of
`for s in sentences`).  The state is `(chunks so far, current buffer)`. -/
def chunkStep (target_chars overlap : ℕ) (st : List (List Char) × List Char)
    (s0 : List Char) : List (List Char) × List Char :=
  let s := stripL s0
  if s = [] then st
  else if st.2.length + s.length + 1 ≤ target_chars then
    (st.1, stripL (st.2 ++ ' ' :: s))
  else
    let st1 :=
      if st.2 = [] then st
      else
        (st.1 ++ [st.2],
         if 0 < overlap ∧ overlap < st.2.length then
           st.2.drop (st.2.length - overlap)
         else [])
    (st1.1, stripL (st1.2 ++ ' ' :: s))

/-- `ingest.chunk_text`: split `text` into sentence-aligned chunks of roughly
`target_chars` characters, seeding each new buffer with the trailing `overlap`
characters of the flushed one. -/
def chunk_text (text : String) (target_chars : ℕ := 750) (overlap : ℕ := 120) :
    List String :=
  let t := stripL text.toList
  if t = [] then []
  else
    let st := (sentSplit t).foldl (chunkStep target_chars overlap) ([], [])
    (if st.2 = [] then st.1 else st.1 ++ [st.2]).map String.mk

/-- The word regex `\w+` of `vector_store.py` (word characters: letters,
digits, underscore). -/
def wordChar (c : Char) : Bool := c.isAlphanum || c = '_'

/-- Worker for `_word_re.findall`: maximal runs of word characters, the
current run held reversed in `cur`. -/
def findWords : List Char → List Char → List (List Char)
  | cur, [] => if cur = [] then [] else [cur.reverse]
  | cur, c :: cs =>
    if wordChar c then findWords (c :: cur) cs
    else if cur = [] then findWords [] cs
    else cur.reverse :: findWords [] cs

/-- `vector_store._norm_words`: the lower-cased word tokens of a string. -/
def _norm_words (s : String) : List String :=
  (findWords [] s.toList).map (fun w => String.mk (w.map Char.toLower))

/-- `vector_store._lexical_overlap_score`: word-overlap ratio between query
and document.  Note the hit count runs over the document tokens with
multiplicity (`sum(1 for w in t_words if w in q_words)`); only the query side
is a set. -/
def _lexical_overlap_score (q text : String) : ℚ :=
  let q_words := _norm_words q
  if q_words = [] then 0
  else
    let t_words := _norm_words text
    if t_words = [] then 0
    else ((t_words.filter (fun w => q_words.contains w)).length : ℚ) /
      ((max 6 t_words.length : ℕ) : ℚ)

/-- The metadata fields `search_with_rerank` reads.  The ingestion pipeline
stores `title`, `author` and `themes` as strings (see `ingest.main`), so a
field is either absent (`none`, read as `None`) or a string. -/
structure Meta where
  title : Option String
  author : Option String
  themes : Option String
deriving DecidableEq

/-- The clamp `sem = 0.0 if sem < 0 else (1.0 if sem > 1 else sem)` applied
to `1 - distance` in `search_with_rerank`. -/
def semClamp (dist : ℚ) : ℚ :=
  let sem := 1 - dist
  if sem < 0 then 0 else if sem > 1 then 1 else sem

/-- The composite score `0.60 * sem + 0.25 * lex + boost`. -/
def composite (sem lex boost : ℚ) : ℚ := 0.60 * sem + 0.25 * lex + boost

/-- The body of the candidate loop of `search_with_rerank`: the score given
to one candidate `(doc, meta, dist)` for query `q`.  The boost is accumulated
sequentially exactly as the `boost +=` statements do; the theme loop adds
`0.04` once per matching theme, i.e. `0.04 ·` (number of matches). -/
def itemScore (q doc : String) (meta : Meta) (dist : ℚ) : ℚ :=
  let sem := semClamp dist
  let lex := _lexical_overlap_score q doc
  let q_low := pyLower q
  let title := pyStrip (meta.title.getD "")
  let author := pyStrip (meta.author.getD "")
  let themes_val := meta.themes.getD ""
  let themes_list := (pySplitComma themes_val).filterMap
    (fun t => if pyStrip t = "" then none else some (pyLower (pyStrip t)))
  let boost0 : ℚ := 0
  let boost1 :=
    if title ≠ "" then
      if pyStrip q_low = pyLower title then boost0 + 0.20
      else if pySubstr (pyLower title) q_low || pySubstr q_low (pyLower title) then
        boost0 + 0.12
      else
        boost0 + min 0.10 (0.02 * (((_norm_words title).dedup.filter
          (fun w => (_norm_words q).contains w)).length : ℚ))
    else boost0
  let boost2 := boost1 +
    0.04 * ((themes_list.filter (fun th => pySubstr th q_low)).length : ℚ)
  let boost3 :=
    if author ≠ "" && pySubstr (pyLower author) q_low then boost2 + 0.06 else boost2
  composite sem lex boost3

/-- A metadata filter object; the code under study only inspects its
emptiness, so entries are kept abstract as key/value strings. -/
abbrev WhereFilter := List (String × String)

/-- The keyword arguments `query_raw` passes to the Chroma collection; the
embedding call on the query text is external, so the kwargs carry the text. -/
structure QueryKwargs where
  query_text : String
  n_results : ℕ
  whereClause : Option WhereFilter

/-- `vector_store._build_query_kwargs`: attach a `where` clause only when a
non-empty filter object was supplied (`if where and len(where) > 0`). -/
def _build_query_kwargs (q : String) (n_results : ℕ) (whereArg : Option WhereFilter) :
    QueryKwargs :=
  { query_text := q, n_results := n_results,
    whereClause :=
      match whereArg with
      | some f => if 0 < f.length then some f else none
      | none => none }

/-- The per-row answer of the Chroma collection: documents, metadatas and
distances, position-aligned (the code reads row 0 of each). -/
structure RawResult where
  documents : List String
  metadatas : List Meta
  distances : List ℚ

/-- `vector_store.query_raw`: build the kwargs and hand them to the
collection.  The collection is an external system, modelled as the function
parameter `backend`. -/
def query_raw (backend : QueryKwargs → RawResult) (q : String) (n_results : ℕ)
    (whereArg : Option WhereFilter) : RawResult :=
  backend (_build_query_kwargs q n_results whereArg)

/-- Python `round(x, 4)`.  The model rounds half up at exact four-decimal
ties (which binary floats do not produce); only monotonicity of the rounding
is relied on. -/
def round4 (x : ℚ) : ℚ := (⌊x * 10000 + 1/2⌋ : ℚ) / 10000

/-- One returned search result `{"document": ..., "metadata": ..., "score": ...}`. -/
structure Item where
  document : String
  metadata : Meta
  score : ℚ
deriving DecidableEq

/-- Steps 2-3 of `vector_store.search_with_rerank` on the rows the collection
returned: zip documents/metadatas/distances (Python `zip` truncates to the
shortest), score each candidate with `itemScore`, sort by score descending
(Python's stable `sort(key=..., reverse=True)`, modelled by a stable insertion
sort on the mirrored relation) and return the first `k` with scores rounded to
four decimals. -/
def rerankCandidates (q : String) (k : ℕ) (raw : RawResult) : List Item :=
  let cands := raw.documents.zip (raw.metadatas.zip raw.distances)
  let items := cands.map (fun c => (itemScore q c.1 c.2.1 c.2.2, c.2.1, c.1))
  let sorted := List.insertionSort (fun a b : ℚ × Meta × String => b.1 ≤ a.1) items
  (sorted.take k).map (fun it =>
    { document := it.2.2, metadata := it.2.1, score := round4 it.1 })

/-- `vector_store.search_with_rerank`: fetch `max(12, 3k)` candidates through
`query_raw` (dropping an absent/empty filter), then rerank. -/
def search_with_rerank (backend : QueryKwargs → RawResult) (q : String) (k : ℕ)
    (filters : Option WhereFilter := none) : List Item :=
  let n := max 12 (k * 3)
  let whereArg :=
    match filters with
    | some f => if 0 < f.length then some f else none
    | none => none
  rerankCandidates q k (query_raw backend q n whereArg)

/-- The JSON-shaped Python values flowing through `ingest.py` (`json.load`
output and the record dicts built from it).  Numeric payloads are modelled as
integers; the code under study never does arithmetic on them. -/
inductive PyVal where
  | none
  | bool (b : Bool)
  | int (n : ℤ)
  | str (s : String)
  | list (xs : List PyVal)
  | dict (kvs : List (String × PyVal))

/-- Python truthiness. -/
def PyVal.truthy : PyVal → Bool
  | .none => false
  | .bool b => b
  | .int n => decide (n ≠ 0)
  | .str s => decide (s ≠ "")
  | .list xs => !xs.isEmpty
  | .dict kvs => !kvs.isEmpty

/-- Python `a or b`. -/
def pyOr (a b : PyVal) : PyVal := if a.truthy then a else b

/-- Python `d.get(k)`.  JSON objects have unique keys, kept in insertion
order; the code only calls `.get` on values it has checked to be dicts (or
crashes first, which the callers below model separately). -/
def PyVal.get : PyVal → String → PyVal
  | .dict kvs, k => (kvs.lookup k).getD .none
  | _, _ => .none

/-- Python `str(v)`.  Containers get placeholder renderings; the claims under
study never look inside them. -/
def pyStr : PyVal → String
  | .none => "None"
  | .bool b => if b then "True" else "False"
  | .int n => toString n
  | .str s => s
  | .list _ => "[...]"
  | .dict _ => "(dict)"

/-- The two ways `ingest` can raise: the `AssertionError` at the end of
`load_dataset` (the spec's dataset-format error), and the `AttributeError`
from calling `.strip()` on a non-string truthy value. -/
inductive PyErr where
  | formatError
  | attributeError
deriving DecidableEq

/-- `v.strip()`: defined only on strings. -/
def pyStripV : PyVal → Except PyErr String
  | .str s => .ok (pyStrip s)
  | _ => .error .attributeError

/-- The body of the title-keyed-mapping loop of `ingest.load_dataset`:
produce a record for one `(title_key, val)` entry, `Option.none` for the
`continue` branch. -/
def buildItem (title_key : String) : PyVal → Except PyErr (Option PyVal)
  | .str v =>
    .ok (some (.dict [("title", .str title_key), ("author", .str ""),
      ("themes", .list []), ("year", .str ""), ("summary_full", .str (pyStrip v))]))
  | .dict kvs =>
    let val := PyVal.dict kvs
    match pyStripV (pyOr (pyOr (val.get "title") (.str title_key)) (.str "")) with
    | .error e => .error e
    | .ok title =>
      match pyStripV (pyOr (val.get "author") (.str "")) with
      | .error e => .error e
      | .ok author =>
        let themes0 := pyOr (val.get "themes") (pyOr (val.get "tags") (.list []))
        let themes := match themes0 with | .str s => PyVal.list [.str s] | t => t
        let year := pyOr (val.get "year") (pyOr (val.get "published") (.str ""))
        let summary := pyOr (val.get "summary_full") (pyOr (val.get "summary")
          (pyOr (val.get "text") (pyOr (val.get "short_summary") (.str ""))))
        match pyStripV (pyOr summary (.str "")) with
        | .error e => .error e
        | .ok summaryS =>
          .ok (some (.dict [("title", .str title), ("author", .str author),
            ("themes", themes), ("year", year), ("summary_full", .str summaryS)]))
  | _ => .ok Option.none

/-- The title-keyed-mapping loop of `ingest.load_dataset`, first raise
winning, `continue`d entries skipped. -/
def buildItems : List (String × PyVal) → Except PyErr (List PyVal)
  | [] => .ok []
  | (k, v) :: rest =>
    match buildItem k v with
    | .error e => .error e
    | .ok it =>
      match buildItems rest with
      | .error e => .error e
      | .ok more =>
        match it with
        | some i => .ok (i :: more)
        | Option.none => .ok more

/-- `ingest.load_dataset` (after `json.load`): a list is returned as-is; a
dict with a `"books"` list returns that list; any other dict goes through the
title-keyed-mapping loop, empty outcomes raising; anything else raises. -/
def load_dataset : PyVal → Except PyErr (List PyVal)
  | .list xs => .ok xs
  | .dict kvs =>
    (match kvs.lookup "books" with
    | some (.list bs) => .ok bs
    | _ =>
      match buildItems kvs with
      | .error e => .error e
      | .ok items => if items.isEmpty then .error .formatError else .ok items)
  | _ => .error .formatError

/-- The metadata dict `ingest.main` builds for one chunk (the `meta` literal
of the record loop): `title`, `author` and `themes` are always strings there,
`year` and `language` are stored as read. -/
def chunkMeta (title author themes_str : String) (year lang : PyVal) (i n : ℕ) :
    List (String × PyVal) :=
  [("title", .str title), ("author", .str author), ("themes", .str themes_str),
   ("year", year), ("language", lang), ("chunk", .int i), ("chunks_total", .int n)]

/-- The record loop of `ingest.main` for one item: normalize the metadata
fields, chunk the summary and emit one metadata dict per chunk.  (The
freshly drawn uuid ids are not modelled; no claim mentions them.) -/
def processItem : PyVal → Except PyErr (List String × List (List (String × PyVal)))
  | .dict kvs =>
    let item := PyVal.dict kvs
    match pyStripV (pyOr (item.get "title") (.str "")) with
    | .error e => .error e
    | .ok title =>
      match pyStripV (pyOr (item.get "author") (.str "")) with
      | .error e => .error e
      | .ok author =>
        let raw_themes := pyOr (item.get "themes") (pyOr (item.get "tags") (.list []))
        let themes_list : List String :=
          match raw_themes with
          | .str s => [s]
          | .list xs => xs.filterMap
              (fun x => match x with | .none => Option.none | v => some (pyStr v))
          | _ => []
        let themes_str := String.intercalate ", "
          ((themes_list.map pyStrip).filter (fun t => t ≠ ""))
        let year := pyOr (item.get "year") (pyOr (item.get "published") (.str ""))
        let lang := pyOr (item.get "language") (.str "ro")
        let summary := pyOr (item.get "summary_full") (pyOr (item.get "summary")
          (pyOr (item.get "text") (pyOr (item.get "short_summary") (.str ""))))
        match (match summary with
               | .str s => Except.ok s
               | v => if v.truthy then Except.error PyErr.attributeError
                 else Except.ok "") with
        | .error e => .error e
        | .ok summaryS =>
          let chunks := chunk_text summaryS 750 120
          .ok (chunks, (List.range chunks.length).map (fun i =>
            chunkMeta title author themes_str year lang i chunks.length))
  | _ => .error .attributeError

/-- The whole record loop of `ingest.main`: concatenate chunks and metadata
dicts across items, first raise winning. -/
def processItems : List PyVal → Except PyErr (List String × List (List (String × PyVal)))
  | [] => .ok ([], [])
  | item :: rest =>
    match processItem item with
    | .error e => .error e
    | .ok cm =>
      match processItems rest with
      | .error e => .error e
      | .ok rest2 => .ok (cm.1 ++ rest2.1, cm.2 ++ rest2.2)

/-- The externally visible steps of `ingest.main`, in program order. -/
inductive Effect where
  | makedirs | reset | readDataset | logNoContent | logIndexing | insert | logDone
deriving DecidableEq

/-- The effect trace of `ingest.main`, parameterised by what reading the
dataset file yields: `Option.none` models `open`/`json.load` raising (missing
or unparsable file), `some j` the parsed JSON value.  A raise anywhere ends
the trace. -/
def mainTrace (fileData : Option PyVal) : List Effect :=
  .makedirs :: .reset ::
    match fileData with
    | Option.none => [.readDataset]
    | some j =>
      .readDataset ::
        match load_dataset j with
        | .error _ => []
        | .ok items =>
          match processItems items with
          | .error _ => []
          | .ok (chunks, _) =>
            if chunks.isEmpty then [.logNoContent]
            else [.logIndexing, .insert, .logDone]

/-- The chunker's flush step as the spec's overlap sentence describes it:
after every flush the new buffer is seeded with the trailing `overlap`
characters of the just-flushed buffer whenever `overlap > 0` — with no
condition on the flushed buffer's length.  Identical to `chunkStep`
otherwise. -/
def chunkStepSpecSeed (target_chars overlap : ℕ) (st : List (List Char) × List Char)
    (s0 : List Char) : List (List Char) × List Char :=
  let s := stripL s0
  if s = [] then st
  else if st.2.length + s.length + 1 ≤ target_chars then
    (st.1, stripL (st.2 ++ ' ' :: s))
  else
    let st1 :=
      if st.2 = [] then st
      else
        (st.1 ++ [st.2],
         if 0 < overlap then st.2.drop (st.2.length - overlap) else [])
    (st1.1, stripL (st1.2 ++ ' ' :: s))

/-- `chunk_text` with the spec-described seeding policy substituted for the
code's. -/
def chunk_textSpecSeed (text : String) (target_chars overlap : ℕ) : List String :=
  let t := stripL text.toList
  if t = [] then []
  else
    let st := (sentSplit t).foldl (chunkStepSpecSeed target_chars overlap) ([], [])
    (if st.2 = [] then st.1 else st.1 ++ [st.2]).map String.mk

/-- The length of the longest stripped sentence of the stripped input —
the quantity that, together with `target_chars` and `overlap`, bounds every
chunk's length. -/
def maxSentLen (text : String) : ℕ :=
  ((sentSplit (stripL text.toList)).map (fun s => (stripL s).length)).foldr max 0

/-- The lexical formula as the spec words it: DISTINCT document words that
also appear in the query, over `max 6 (word count)` (same degenerate-input
guards as the code). -/
def lexicalOverlapScoreSpec (q text : String) : ℚ :=
  let q_words := _norm_words q
  if q_words = [] then 0
  else
    let t_words := _norm_words text
    if t_words = [] then 0
    else ((t_words.dedup.filter (fun w => q_words.contains w)).length : ℚ) /
      ((max 6 t_words.length : ℕ) : ℚ)

/-- The title term of the boost, as a standalone function of the query and
the stored title. -/
def titleBoostSpec (q title : String) : ℚ :=
  let t := pyStrip title
  if t ≠ "" then
    if pyStrip (pyLower q) = pyLower t then 0.20
    else if pySubstr (pyLower t) (pyLower q) || pySubstr (pyLower q) (pyLower t) then 0.12
    else min 0.10 (0.02 * (((_norm_words t).dedup.filter
      (fun w => (_norm_words q).contains w)).length : ℚ))
  else 0

/-- The theme term of the boost: `0.04` per comma-separated theme token
literally contained in the lower-cased query. -/
def themesBoostSpec (q : String) (themes : Option String) : ℚ :=
  0.04 * ((((pySplitComma (themes.getD "")).filterMap
    (fun t => if pyStrip t = "" then Option.none else some (pyLower (pyStrip t)))).filter
      (fun th => pySubstr th (pyLower q))).length : ℚ)

/-- The author term of the boost: `0.06` when the author is non-empty and its
lower-casing is a substring of the lower-cased query. -/
def authorBoostSpec (q : String) (author : String) : ℚ :=
  if pyStrip author ≠ "" && pySubstr (pyLower (pyStrip author)) (pyLower q) then 0.06
  else 0

/-- Shape test: is the value a JSON array? -/
def isListShape : PyVal → Bool
  | .list _ => true
  | _ => false

/-- Shape test: is the value an object whose `"books"` entry is an array? -/
def hasBooksList : PyVal → Bool
  | .dict kvs =>
    match kvs.lookup "books" with
    | some (.list _) => true
    | _ => false
  | _ => false

/-- Is the value a string or an object — the two kinds of entry
`load_dataset`'s mapping loop keeps (everything else hits `continue`)? -/
def isStrOrDict : PyVal → Bool
  | .str _ => true
  | .dict _ => true
  | _ => false

/-- Shape test: is the value an object with at least one string- or
object-valued entry? -/
def hasStrOrDictValue : PyVal → Bool
  | .dict kvs => kvs.any (fun kv => isStrOrDict kv.2)
  | _ => false

/-- The acceptable dataset shapes exactly as the claim words them: a flat
list of record objects, an object with a `books` list, or a title-keyed
mapping all of whose values are strings or record objects. -/
def acceptableShapeSpec : PyVal → Bool
  | .list xs => xs.all (fun x => match x with | .dict _ => true | _ => false)
  | .dict kvs =>
    (match kvs.lookup "books" with | some (.list _) => true | _ => false) ||
    kvs.all (fun kv => match kv.2 with | .str _ => true | .dict _ => true | _ => false)
  | _ => false

/-- A collection backend with an empty index: every query returns no rows.
Used to instantiate backend-quantified statements on concrete inputs. -/
def trivialBackend : QueryKwargs → RawResult := fun _ => ⟨[], [], []⟩

theorem length_dropWhile_le {α : Type} (p : α → Bool) (l : List α) :
    (l.dropWhile p).length ≤ l.length := by
  induction l with
  | nil => simp [List.dropWhile]
  | cons a t ih =>
    by_cases h : p a
    · simp only [List.dropWhile, h, List.length_cons]
      omega
    · simp [List.dropWhile, h]

theorem stripL_length_le (s : List Char) : (stripL s).length ≤ s.length := by
  unfold stripL
  have h1 := length_dropWhile_le Char.isWhitespace s
  have h2 := length_dropWhile_le Char.isWhitespace (s.dropWhile Char.isWhitespace).reverse
  simp only [List.length_reverse] at *
  omega

theorem chunkStep_bound (T O L : ℕ) (st : List (List Char) × List Char)
    (s0 : List Char) (hs : (stripL s0).length ≤ L)
    (hbuf : st.2.length ≤ max T (O + 1 + L))
    (hch : ∀ c ∈ st.1, c.length ≤ max T (O + 1 + L)) :
    (chunkStep T O st s0).2.length ≤ max T (O + 1 + L) ∧
      ∀ c ∈ (chunkStep T O st s0).1, c.length ≤ max T (O + 1 + L) := by
  have hOL : O + 1 + L ≤ max T (O + 1 + L) := le_max_right _ _
  have hT : T ≤ max T (O + 1 + L) := le_max_left _ _
  simp only [chunkStep]
  split_ifs with h1 h2 h3 h4
  · exact ⟨hbuf, hch⟩
  · dsimp only
    refine ⟨?_, hch⟩
    have hle := stripL_length_le (st.2 ++ ' ' :: stripL s0)
    simp only [List.length_append, List.length_cons] at hle
    omega
  · dsimp only
    refine ⟨?_, hch⟩
    have hle := stripL_length_le (st.2 ++ ' ' :: stripL s0)
    have h3' : st.2.length = 0 := by rw [h3]; rfl
    simp only [List.length_append, List.length_cons] at hle
    omega
  · dsimp only
    refine ⟨?_, ?_⟩
    · have hle := stripL_length_le (List.drop (st.2.length - O) st.2 ++ ' ' :: stripL s0)
      simp only [List.length_append, List.length_cons, List.length_drop] at hle
      omega
    · intro c hc
      simp only [List.mem_append, List.mem_singleton] at hc
      rcases hc with hc | rfl
      · exact hch c hc
      · exact hbuf
  · dsimp only
    refine ⟨?_, ?_⟩
    · have hle := stripL_length_le (([] : List Char) ++ ' ' :: stripL s0)
      simp only [List.length_append, List.length_cons, List.length_nil] at hle
      omega
    · intro c hc
      simp only [List.mem_append, List.mem_singleton] at hc
      rcases hc with hc | rfl
      · exact hch c hc
      · exact hbuf

theorem foldl_chunkStep_bound (T O L : ℕ) (sents : List (List Char))
    (hs : ∀ s ∈ sents, (stripL s).length ≤ L) :
    ∀ st : List (List Char) × List Char,
      st.2.length ≤ max T (O + 1 + L) →
      (∀ c ∈ st.1, c.length ≤ max T (O + 1 + L)) →
      (sents.foldl (chunkStep T O) st).2.length ≤ max T (O + 1 + L) ∧
        ∀ c ∈ (sents.foldl (chunkStep T O) st).1,
          c.length ≤ max T (O + 1 + L) := by
  induction sents with
  | nil => intro st h1 h2; exact ⟨h1, h2⟩
  | cons s rest ih =>
    intro st h1 h2
    have hstep := chunkStep_bound T O L st s (hs s (by simp)) h1 h2
    simpa using ih (fun x hx => hs x (by simp [hx])) (chunkStep T O st s)
      hstep.1 hstep.2

theorem foldr_max_ge (l : List ℕ) : ∀ x ∈ l, x ≤ l.foldr max 0 := by
  induction l with
  | nil => simp
  | cons a t ih =>
    intro x hx
    simp only [List.mem_cons] at hx
    simp only [List.foldr_cons]
    rcases hx with rfl | hx
    · exact le_max_left _ _
    · exact le_trans (ih x hx) (le_max_right _ _)

/-- C2 (amended): every chunk produced by `chunk_text` has length at most
`max target_chars (overlap + 1 + maxSentLen text)` — a chunk can exceed
`target_chars` not only as a single over-long sentence but whenever the
overlap seed plus a single sentence does; and a sentence is appended to the
running buffer (no flush) exactly when
`len(buffer) + len(sentence) + 1 ≤ target_chars`. -/
theorem chunk_text_length_bound (text : String) (T O : ℕ) (c : String)
    (hc : c ∈ chunk_text text T O) :
    c.length ≤ max T (O + 1 + maxSentLen text) ∧
      ∀ (st : List (List Char) × List Char) (s0 : List Char),
        stripL s0 ≠ [] → st.2.length + (stripL s0).length + 1 ≤ T →
        chunkStep T O st s0 = (st.1, stripL (st.2 ++ ' ' :: stripL s0)) := by
  constructor
  · unfold chunk_text at hc
    dsimp only at hc
    by_cases ht : stripL text.toList = []
    · rw [if_pos ht] at hc
      simp at hc
    · rw [if_neg ht] at hc
      have hinv := foldl_chunkStep_bound T O (maxSentLen text)
        (sentSplit (stripL text.toList))
        (fun s hsm => foldr_max_ge _ _ (List.mem_map_of_mem _ hsm))
        ([], []) (by simp) (by simp)
      rcases List.mem_map.1 hc with ⟨a, ha, rfl⟩
      have hlen : (String.mk a).length = a.length := rfl
      rw [hlen]
      split at ha
      · exact hinv.2 a ha
      · simp only [List.mem_append, List.mem_singleton] at ha
        rcases ha with ha | rfl
        · exact hinv.2 a ha
        · exact hinv.1
  · intro st s0 hns hfit
    simp only [chunkStep, if_neg hns, if_pos hfit]

/-- C2 counterexample to the claim as stated: `chunk_text` on
`"aaaaaaaaa. bbbbbbbbb. c"` with `target_chars = 10`, `overlap = 5` produces
the chunk `"aaaa. bbbbbbbbb."` of length 16 > 10, which is not a single
(stripped) sentence of the input — it is an overlap seed plus a sentence of
length 10 ≤ 10. -/
theorem chunk_text_length_counterexample :
    ¬ ∀ c ∈ chunk_text "aaaaaaaaa. bbbbbbbbb. c" 10 5,
        c.length ≤ 10 ∨
          ∃ s ∈ sentSplit (stripL ("aaaaaaaaa. bbbbbbbbb. c").toList),
            c = String.mk (stripL s) ∧ 10 < (stripL s).length := by
  decide

theorem chunk_text_length_bound_witness :
    "aaaa. bbbbbbbbb." ∈ chunk_text "aaaaaaaaa. bbbbbbbbb. c" 10 5 ∧
      ("aaaa. bbbbbbbbb.".length ≤ max 10 (5 + 1 + maxSentLen "aaaaaaaaa. bbbbbbbbb. c") ∧
        ∀ (st : List (List Char) × List Char) (s0 : List Char),
          stripL s0 ≠ [] → st.2.length + (stripL s0).length + 1 ≤ 10 →
          chunkStep 10 5 st s0 = (st.1, stripL (st.2 ++ ' ' :: stripL s0))) :=
  ⟨by decide,
   chunk_text_length_bound "aaaaaaaaa. bbbbbbbbb. c" 10 5 "aaaa. bbbbbbbbb." (by decide)⟩

/-- C3 (amended): when a sentence does not fit and the buffer is non-empty,
the buffer is flushed as a chunk and the new buffer is seeded with the
trailing `overlap` characters of the flushed buffer exactly when
`overlap > 0` and the flushed buffer is strictly longer than `overlap`;
otherwise (in particular for flushed chunks of length ≤ `overlap`) the new
buffer starts from the empty seed. -/
theorem chunkStep_flush_seed (T O : ℕ) (st : List (List Char) × List Char)
    (s0 : List Char) (hns : stripL s0 ≠ [])
    (hover : ¬ st.2.length + (stripL s0).length + 1 ≤ T) (hne : st.2 ≠ []) :
    chunkStep T O st s0 =
      (st.1 ++ [st.2],
       stripL ((if 0 < O ∧ O < st.2.length then st.2.drop (st.2.length - O) else [])
         ++ ' ' :: stripL s0)) := by
  simp only [chunkStep, if_neg hns, if_neg hover, if_neg hne]

/-- C3 counterexample to the claim as stated: for
`chunk_text "ab. cdefgh." 5 10` the first flushed chunk `"ab."` has length
3 ≤ overlap = 10; the code seeds the next buffer empty, whereas seeding with
the trailing `overlap` characters of the flushed chunk (the whole chunk, as
the spec's unconditional wording demands) would give a different second
chunk. -/
theorem chunk_text_seed_counterexample :
    chunk_text "ab. cdefgh." 5 10 = ["ab.", "cdefgh."] ∧
      chunk_textSpecSeed "ab. cdefgh." 5 10 = ["ab.", "ab. cdefgh."] ∧
      chunk_text "ab. cdefgh." 5 10 ≠ chunk_textSpecSeed "ab. cdefgh." 5 10 :=
  ⟨by decide, by decide, by decide⟩

theorem chunkStep_flush_seed_witness :
    stripL "bbbbbbbbb.".toList ≠ [] ∧
      ¬ ("aaaaaaaaa.".toList.length + (stripL "bbbbbbbbb.".toList).length + 1 ≤ 10) ∧
      chunkStep 10 5 ([], "aaaaaaaaa.".toList) "bbbbbbbbb.".toList =
        ([["aaaaaaaaa.".toList].getLast (by simp)],
         stripL ((if 0 < 5 ∧ 5 < "aaaaaaaaa.".toList.length then
             "aaaaaaaaa.".toList.drop ("aaaaaaaaa.".toList.length - 5)
           else []) ++ ' ' :: stripL "bbbbbbbbb.".toList)) := by
  refine ⟨by decide, by decide, ?_⟩
  have h := chunkStep_flush_seed 10 5 ([], "aaaaaaaaa.".toList) "bbbbbbbbb.".toList
    (by decide) (by decide) (by decide)
  simpa using h

/-- C4: `_build_query_kwargs` attaches no `where` clause exactly when the
filter argument is absent or an empty object; it attaches exactly the
supplied filter when that is non-empty; and `search_with_rerank` submits a
clause-free query to the collection whenever its `filters` argument is absent
or empty. -/
theorem build_query_kwargs_where_clause :
    (∀ (q : String) (n : ℕ) (w : Option WhereFilter),
      (_build_query_kwargs q n w).whereClause = Option.none ↔
        w = Option.none ∨ w = some []) ∧
    (∀ (q : String) (n : ℕ) (w : Option WhereFilter) (f : WhereFilter),
      (_build_query_kwargs q n w).whereClause = some f ↔ w = some f ∧ f ≠ []) ∧
    (∀ (backend : QueryKwargs → RawResult) (q : String) (k : ℕ)
        (filters : Option WhereFilter),
      filters = Option.none ∨ filters = some [] →
      search_with_rerank backend q k filters =
        rerankCandidates q k (backend
          { query_text := q, n_results := max 12 (k * 3),
            whereClause := Option.none })) := by
  refine ⟨?_, ?_, ?_⟩
  · intro q n w
    cases w with
    | none => simp [_build_query_kwargs]
    | some f => cases f <;> simp [_build_query_kwargs]
  · intro q n w f
    cases w with
    | none => simp [_build_query_kwargs]
    | some g =>
      cases g with
      | nil => simp [_build_query_kwargs]
      | cons a t =>
        simp only [_build_query_kwargs, List.length_cons, Nat.zero_lt_succ, if_pos,
          Option.some.injEq]
        constructor
        · rintro rfl
          exact ⟨rfl, by simp⟩
        · rintro ⟨h, _⟩
          exact h
  · rintro backend q k filters (rfl | rfl) <;>
      simp [search_with_rerank, query_raw, _build_query_kwargs]

theorem build_query_kwargs_where_clause_witness :
    ((_build_query_kwargs "q" 12 (some [])).whereClause = Option.none ↔
      (some [] : Option WhereFilter) = Option.none ∨
        (some [] : Option WhereFilter) = some []) ∧
    search_with_rerank trivialBackend "q" 1 (some []) =
      rerankCandidates "q" 1 (trivialBackend
        { query_text := "q", n_results := max 12 (1 * 3),
          whereClause := Option.none }) :=
  ⟨build_query_kwargs_where_clause.1 "q" 12 (some []),
   build_query_kwargs_where_clause.2.2 trivialBackend "q" 1 (some []) (Or.inr rfl)⟩

unseal Rat.add Rat.mul Rat.inv Rat.ofScientific Rat.sub in
/-- C5 counterexample to the claim as stated: for query `"cat"` and document
`"cat cat"` the code scores `2/6` (document tokens counted with
multiplicity), while the spec's distinct-word formula gives `1/6`. -/
theorem lexical_overlap_counterexample :
    _lexical_overlap_score "cat" "cat cat" = 2 / 6 ∧
      lexicalOverlapScoreSpec "cat" "cat cat" = 1 / 6 ∧
      _lexical_overlap_score "cat" "cat cat" ≠
        lexicalOverlapScoreSpec "cat" "cat cat" :=
  ⟨by decide, by decide, by decide⟩

/-- C5 (amended): for non-degenerate inputs, the lexical component equals the
number of document tokens that also appear in the query — counted WITH
multiplicity, not as a set of distinct words — divided by
`max 6 (word count of the document)`. -/
theorem lexical_overlap_multiplicity (q text : String)
    (hq : _norm_words q ≠ []) (ht : _norm_words text ≠ []) :
    _lexical_overlap_score q text =
      (((_norm_words text).countP (fun w => (_norm_words q).contains w)) : ℚ) /
        ((max 6 (_norm_words text).length : ℕ) : ℚ) := by
  simp only [_lexical_overlap_score, if_neg hq, if_neg ht,
    List.countP_eq_length_filter]

theorem lexical_overlap_multiplicity_witness :
    _norm_words "cat" ≠ [] ∧ _norm_words "dog cat" ≠ [] ∧
      _lexical_overlap_score "cat" "dog cat" =
        (((_norm_words "dog cat").countP
            (fun w => (_norm_words "cat").contains w)) : ℚ) /
          ((max 6 (_norm_words "dog cat").length : ℕ) : ℚ) :=
  ⟨by decide, by decide,
   lexical_overlap_multiplicity "cat" "dog cat" (by decide) (by decide)⟩

/-- C7: the semantic component (the clamp of `1 − distance`) lies in `[0,1]`,
the lexical component lies in `[0,1]`, and with semantic and lexical held
fixed the composite score is monotonically non-decreasing in the boost. -/
theorem rerank_score_bounds :
    (∀ dist : ℚ, 0 ≤ semClamp dist ∧ semClamp dist ≤ 1) ∧
    (∀ q t : String,
      0 ≤ _lexical_overlap_score q t ∧ _lexical_overlap_score q t ≤ 1) ∧
    (∀ sem lex b₁ b₂ : ℚ, b₁ ≤ b₂ →
      composite sem lex b₁ ≤ composite sem lex b₂) := by
  refine ⟨?_, ?_, ?_⟩
  · intro dist
    simp only [semClamp]
    split_ifs with h1 h2 <;> constructor <;> linarith
  · intro q t
    simp only [_lexical_overlap_score]
    split_ifs with h1 h2
    · norm_num
    · norm_num
    · have hd : (0 : ℚ) < ((max 6 (_norm_words t).length : ℕ) : ℚ) := by
        have h6 : 0 < max 6 (_norm_words t).length :=
          lt_of_lt_of_le (by norm_num) (le_max_left _ _)
        exact_mod_cast h6
      constructor
      · positivity
      · rw [div_le_one hd]
        have hlen : ((_norm_words t).filter
            (fun w => (_norm_words q).contains w)).length ≤ (_norm_words t).length :=
          List.length_filter_le _ _
        have hmax : (_norm_words t).length ≤ max 6 (_norm_words t).length :=
          le_max_right _ _
        exact_mod_cast le_trans hlen hmax
  · intro sem lex b₁ b₂ h
    simp only [composite]
    linarith

theorem rerank_score_bounds_witness :
    (0 ≤ semClamp (1/2) ∧ semClamp (1/2) ≤ 1) ∧ ((0 : ℚ) ≤ 1 ∧
      composite 0 0 0 ≤ composite 0 0 1) :=
  ⟨rerank_score_bounds.1 (1/2),
   ⟨by norm_num, rerank_score_bounds.2.2 0 0 0 1 (by norm_num)⟩⟩

/-- C6 (amended): every candidate's composite score is
`0.60·semantic + 0.25·lexical + (title term + theme term + author term)`,
and the title term is exactly `+0.20` when the stored title is non-empty
after stripping and the stripped lower-cased query equals the lower-cased
stripped title.  (The `+0.20` clause needs the non-empty proviso: see the
counterexample.) -/
theorem itemScore_decomposition (q doc : String) (meta : Meta) (dist : ℚ) :
    itemScore q doc meta dist =
      0.60 * semClamp dist + 0.25 * _lexical_overlap_score q doc +
        (titleBoostSpec q (meta.title.getD "") + themesBoostSpec q meta.themes +
          authorBoostSpec q (meta.author.getD "")) ∧
    (pyStrip (meta.title.getD "") ≠ "" →
      pyStrip (pyLower q) = pyLower (pyStrip (meta.title.getD "")) →
      titleBoostSpec q (meta.title.getD "") = 0.20) := by
  constructor
  · simp only [itemScore, composite, titleBoostSpec, themesBoostSpec,
      authorBoostSpec]
    split_ifs <;> ring
  · intro h1 h2
    simp only [titleBoostSpec]
    rw [if_pos h1, if_pos h2]

unseal Rat.add Rat.mul Rat.inv Rat.ofScientific Rat.sub in
/-- C6 counterexample to the claim as stated: the stored metadata title `""`
is equal (case-insensitively) to the query `""`, yet the code contributes no
`+0.20`: the candidate scores `0`, not
`0.60·semantic + 0.25·lexical + 0.20 = 0.20`. -/
theorem exact_title_boost_counterexample :
    pyLower "" = pyLower "" ∧
      itemScore "" "doc" ⟨some "", Option.none, Option.none⟩ 1 = 0 ∧
      composite (semClamp 1) (_lexical_overlap_score "" "doc") 0.20 = 0.20 ∧
      itemScore "" "doc" ⟨some "", Option.none, Option.none⟩ 1 ≠
        composite (semClamp 1) (_lexical_overlap_score "" "doc") 0.20 :=
  ⟨rfl, by decide, by decide, by decide⟩

theorem itemScore_decomposition_witness :
    (itemScore "dune" "x" ⟨some "Dune", Option.none, Option.none⟩ 1 =
      0.60 * semClamp 1 + 0.25 * _lexical_overlap_score "dune" "x" +
        (titleBoostSpec "dune" ((some "Dune").getD "") +
          themesBoostSpec "dune" Option.none +
          authorBoostSpec "dune" ((Option.none : Option String).getD ""))) ∧
      titleBoostSpec "dune" ((some "Dune").getD "") = 0.20 :=
  ⟨(itemScore_decomposition "dune" "x" ⟨some "Dune", Option.none, Option.none⟩ 1).1,
   (itemScore_decomposition "dune" "x" ⟨some "Dune", Option.none, Option.none⟩ 1).2
     (by decide) (by decide)⟩

theorem round4_mono {a b : ℚ} (h : a ≤ b) : round4 a ≤ round4 b := by
  unfold round4
  have hf : (⌊a * 10000 + 1/2⌋ : ℤ) ≤ ⌊b * 10000 + 1/2⌋ :=
    Int.floor_mono (by linarith)
  have hq : ((⌊a * 10000 + 1/2⌋ : ℤ) : ℚ) ≤ ((⌊b * 10000 + 1/2⌋ : ℤ) : ℚ) := by
    exact_mod_cast hf
  linarith

/-- C1: the reranked search returns at most `k` items, never more than the
rows the collection returned for the (possibly filtered) query, sorted by
descending score; an empty candidate set yields `[]` (the function is total —
there is no error path); and `search_with_rerank` is exactly this rerank
applied to the backend's rows for `max(12, 3k)` requested candidates. -/
theorem search_with_rerank_topk (q : String) (k : ℕ) (hk : 1 ≤ k)
    (raw : RawResult) :
    (rerankCandidates q k raw).length ≤ k ∧
    (rerankCandidates q k raw).length ≤ raw.documents.length ∧
    List.Pairwise (fun a b : Item => b.score ≤ a.score)
      (rerankCandidates q k raw) ∧
    (raw.documents.zip (raw.metadatas.zip raw.distances) = [] →
      rerankCandidates q k raw = []) ∧
    (∀ backend filters, search_with_rerank backend q k filters =
      rerankCandidates q k (query_raw backend q (max 12 (k * 3))
        (match filters with
         | some f => if 0 < f.length then some f else Option.none
         | Option.none => Option.none))) := by
  have hlen : (rerankCandidates q k raw).length =
      min k (raw.documents.zip (raw.metadatas.zip raw.distances)).length := by
    simp only [rerankCandidates]
    rw [List.length_map, List.length_take,
      (List.perm_insertionSort _ _).length_eq, List.length_map]
  refine ⟨?_, ?_, ?_, ?_, ?_⟩
  · rw [hlen]; exact min_le_left _ _
  · rw [hlen]
    refine le_trans (min_le_right _ _) ?_
    rw [List.length_zip]
    exact min_le_left _ _
  · simp only [rerankCandidates]
    haveI htot : IsTotal (ℚ × Meta × String) (fun a b => b.1 ≤ a.1) :=
      ⟨fun a b => le_total b.1 a.1⟩
    haveI htr : IsTrans (ℚ × Meta × String) (fun a b => b.1 ≤ a.1) :=
      ⟨fun a b c hab hbc => le_trans hbc hab⟩
    exact List.Pairwise.map _ (fun a b hab => round4_mono hab)
      (List.Pairwise.sublist (List.take_sublist _ _)
        (List.sorted_insertionSort _ _))
  · intro h
    simp [rerankCandidates, h]
  · intro backend filters
    rfl

theorem search_with_rerank_topk_witness :
    (rerankCandidates "q" 1 ⟨[], [], []⟩).length ≤ 1 ∧
    (rerankCandidates "q" 1 ⟨[], [], []⟩).length ≤
      (RawResult.mk [] [] []).documents.length ∧
    List.Pairwise (fun a b : Item => b.score ≤ a.score)
      (rerankCandidates "q" 1 ⟨[], [], []⟩) ∧
    ((RawResult.mk [] [] []).documents.zip
        ((RawResult.mk [] [] []).metadatas.zip
          (RawResult.mk [] [] []).distances) = [] →
      rerankCandidates "q" 1 ⟨[], [], []⟩ = []) ∧
    (∀ backend filters, search_with_rerank backend "q" 1 filters =
      rerankCandidates "q" 1 (query_raw backend "q" (max 12 (1 * 3))
        (match filters with
         | some f => if 0 < f.length then some f else Option.none
         | Option.none => Option.none))) :=
  search_with_rerank_topk "q" 1 (by decide) ⟨[], [], []⟩

theorem pyStripV_error {v : PyVal} {e : PyErr} (h : pyStripV v = .error e) :
    e = .attributeError := by
  cases v <;> simp [pyStripV] at h <;> exact h.symm

theorem buildItem_error_attr {k : String} {v : PyVal} {e : PyErr}
    (h : buildItem k v = .error e) : e = .attributeError := by
  cases v <;> simp only [buildItem] at h
  case dict d =>
    split at h
    · rename_i e1 heq
      injection h with h2
      subst h2
      exact pyStripV_error heq
    · split at h
      · rename_i e1 heq
        injection h with h2
        subst h2
        exact pyStripV_error heq
      · split at h
        · rename_i e1 heq
          injection h with h2
          subst h2
          exact pyStripV_error heq
        · exact absurd h (by simp)
  all_goals exact absurd h (by simp)

theorem buildItem_dict_some {k : String} {d : List (String × PyVal)}
    {it : Option PyVal} (h : buildItem k (.dict d) = .ok it) : ∃ r, it = some r := by
  simp only [buildItem] at h
  split at h
  · exact absurd h (by simp)
  · split at h
    · exact absurd h (by simp)
    · split at h
      · exact absurd h (by simp)
      · exact ⟨_, (Except.ok.inj h).symm⟩

theorem buildItems_error_attr : ∀ (kvs : List (String × PyVal)) (e : PyErr),
    buildItems kvs = .error e → e = .attributeError := by
  intro kvs
  induction kvs with
  | nil => intro e h; exact absurd h (by simp [buildItems])
  | cons kv rest ih =>
    intro e h
    obtain ⟨k, v⟩ := kv
    simp only [buildItems] at h
    split at h
    · rename_i e1 heq
      injection h with h2
      subst h2
      exact buildItem_error_attr heq
    · split at h
      · rename_i e1 heq
        injection h with h2
        subst h2
        exact ih e1 heq
      · split at h <;> exact absurd h (by simp)

theorem buildItems_ok_nil_iff : ∀ kvs : List (String × PyVal),
    buildItems kvs = .ok [] ↔ kvs.any (fun kv => isStrOrDict kv.2) = false := by
  intro kvs
  induction kvs with
  | nil => simp [buildItems]
  | cons kv rest ih =>
    obtain ⟨k, v⟩ := kv
    have hskip : ∀ w : PyVal, isStrOrDict w = false →
        buildItem k w = .ok Option.none →
        ((buildItems ((k, w) :: rest) = .ok []) ↔
          (((k, w) :: rest).any (fun kv => isStrOrDict kv.2) = false)) := by
      intro w hw hb
      simp only [buildItems, hb, List.any_cons, hw, Bool.false_or]
      cases hr : buildItems rest with
      | error e =>
        constructor
        · intro hcontra; exact absurd hcontra (by simp)
        · intro hfalse; exact absurd (ih.mpr hfalse) (by simp [hr])
      | ok more =>
        rw [← ih, hr]
    cases v with
    | str s =>
      simp only [buildItems, buildItem]
      cases hr : buildItems rest <;> simp [hr, isStrOrDict]
    | dict d =>
      cases hbi : buildItem k (.dict d) with
      | error e => simp [buildItems, hbi, isStrOrDict]
      | ok it =>
        obtain ⟨r, rfl⟩ := buildItem_dict_some hbi
        simp only [buildItems, hbi]
        cases hr : buildItems rest <;> simp [hr, isStrOrDict]
    | none => exact hskip _ rfl rfl
    | bool b => exact hskip _ rfl rfl
    | int n => exact hskip _ rfl rfl
    | list xs => exact hskip _ rfl rfl

/-- C8 (amended): `load_dataset` raises its dataset-format error (the
`AssertionError` at its end — what the spec calls `DatasetFormatError`)
exactly when the JSON value is neither an array (arrays are accepted
unchanged, with no check that their elements are record objects), nor an
object carrying a `"books"` array, nor an object with at least one string-
or object-valued entry; object entries of other types are skipped, and
object values whose `title`/`author`/summary fields are non-string truthy
values raise an attribute error instead. -/
theorem load_dataset_formatError_iff (j : PyVal) :
    load_dataset j = .error .formatError ↔
      isListShape j = false ∧ hasBooksList j = false ∧
        hasStrOrDictValue j = false := by
  cases j with
  | none => simp [load_dataset, isListShape, hasBooksList, hasStrOrDictValue]
  | bool b => simp [load_dataset, isListShape, hasBooksList, hasStrOrDictValue]
  | int n => simp [load_dataset, isListShape, hasBooksList, hasStrOrDictValue]
  | str s => simp [load_dataset, isListShape, hasBooksList, hasStrOrDictValue]
  | list xs => simp [load_dataset, isListShape]
  | dict kvs =>
    have htail :
        ((match buildItems kvs with
          | .error e => (Except.error e : Except PyErr (List PyVal))
          | .ok items =>
            if items.isEmpty then Except.error PyErr.formatError
            else Except.ok items) = Except.error PyErr.formatError) ↔
          kvs.any (fun kv => isStrOrDict kv.2) = false := by
      cases hbi : buildItems kvs with
      | error e =>
        have he := buildItems_error_attr kvs e hbi
        subst he
        constructor
        · intro hcontra
          injection hcontra with h2
          exact absurd h2 (by simp)
        · intro hfalse
          exact absurd ((buildItems_ok_nil_iff kvs).mpr hfalse) (by simp [hbi])
      | ok items =>
        cases items with
        | nil => simpa using (buildItems_ok_nil_iff kvs).mp hbi
        | cons a t =>
          simp only [List.isEmpty_cons, Bool.false_eq_true, if_false]
          constructor
          · intro hcontra; exact absurd hcontra (by simp)
          · intro hfalse
            have hnil := (buildItems_ok_nil_iff kvs).mpr hfalse
            rw [hbi] at hnil
            exact absurd hnil (by simp)
    simp only [load_dataset, isListShape, hasBooksList, hasStrOrDictValue]
    cases hb : kvs.lookup "books" with
    | none => simpa using htail
    | some v =>
      cases v with
      | list bs => simp
      | none => simpa using htail
      | bool b => simpa using htail
      | int n => simpa using htail
      | str s => simpa using htail
      | dict d => simpa using htail

/-- C8 counterexample to the claim as stated: `[1]` matches none of the three
accepted shapes (it is a list, but not of record objects), yet `load_dataset`
returns it unchanged instead of failing with the dataset-format error. -/
theorem load_dataset_shape_counterexample :
    acceptableShapeSpec (.list [.int 1]) = false ∧
      load_dataset (.list [.int 1]) = .ok [.int 1] :=
  ⟨rfl, rfl⟩

theorem processItem_themes_string {item : PyVal}
    {cm : List String × List (List (String × PyVal))}
    (h : processItem item = .ok cm) :
    ∀ m ∈ cm.2, ∃ parts : List String,
      m.lookup "themes" = some (.str (String.intercalate ", " parts)) := by
  cases item with
  | dict kvs =>
    simp only [processItem] at h
    split at h
    · exact absurd h (by simp)
    · split at h
      · exact absurd h (by simp)
      · split at h
        · exact absurd h (by simp)
        · injection h with h2
          subst h2
          intro m hm
          simp only [List.mem_map] at hm
          obtain ⟨i, _, rfl⟩ := hm
          exact ⟨_, rfl⟩
  | none => exact absurd h (by simp [processItem])
  | bool b => exact absurd h (by simp [processItem])
  | int n => exact absurd h (by simp [processItem])
  | str s => exact absurd h (by simp [processItem])
  | list xs => exact absurd h (by simp [processItem])

/-- C9: for every successful ingestion run, every metadata dict handed to the
index stores `themes` as a flattened, comma-joined string — never a list
(string, list, `None` and absent inputs all normalize to such a string). -/
theorem processItems_themes_string (items : List PyVal)
    (cm : List String × List (List (String × PyVal)))
    (h : processItems items = .ok cm) :
    ∀ m ∈ cm.2, ∃ parts : List String,
      m.lookup "themes" = some (.str (String.intercalate ", " parts)) := by
  induction items generalizing cm with
  | nil =>
    simp only [processItems] at h
    injection h with h2
    subst h2
    simp
  | cons item rest ih =>
    simp only [processItems] at h
    split at h
    · exact absurd h (by simp)
    · rename_i cm1 heq1
      split at h
      · exact absurd h (by simp)
      · rename_i cm2 heq2
        injection h with h2
        subst h2
        intro m hm
        simp only [List.mem_append] at hm
        rcases hm with hm | hm
        · exact processItem_themes_string heq1 m hm
        · exact ih cm2 heq2 m hm

theorem processItems_themes_string_witness :
    ∃ parts : List String,
      ([("title", PyVal.str "T"), ("author", PyVal.str ""),
        ("themes", PyVal.str "a, b"), ("year", PyVal.str ""),
        ("language", PyVal.str "ro"), ("chunk", PyVal.int 0),
        ("chunks_total", PyVal.int 1)] : List (String × PyVal)).lookup "themes" =
        some (.str (String.intercalate ", " parts)) :=
  processItems_themes_string
    [.dict [("title", .str "T"), ("themes", .list [.str "a", .str "b"]),
      ("summary", .str "s.")]]
    (["s."],
     [[("title", PyVal.str "T"), ("author", PyVal.str ""),
       ("themes", PyVal.str "a, b"), ("year", PyVal.str ""),
       ("language", PyVal.str "ro"), ("chunk", PyVal.int 0),
       ("chunks_total", PyVal.int 1)]])
    rfl
    [("title", PyVal.str "T"), ("author", PyVal.str ""),
     ("themes", PyVal.str "a, b"), ("year", PyVal.str ""),
     ("language", PyVal.str "ro"), ("chunk", PyVal.int 0),
     ("chunks_total", PyVal.int 1)]
    (by simp)

/-- C10: every run's trace begins `makedirs, reset, readDataset` — the full
index reset happens before the dataset file is read, hence before any
insert, and it has already happened in runs whose dataset is missing,
malformed or yields no content; and an insert occurs exactly in a run whose
dataset loads and produces at least one chunk. -/
theorem mainTrace_reset_first :
    (∀ fd : Option PyVal, ∃ rest, mainTrace fd =
      .makedirs :: .reset :: .readDataset :: rest) ∧
    (∀ fd : Option PyVal, Effect.insert ∈ mainTrace fd ↔
      ∃ j items cm, fd = some j ∧ load_dataset j = .ok items ∧
        processItems items = .ok cm ∧ cm.1 ≠ []) := by
  constructor
  · intro fd
    cases fd with
    | none => exact ⟨_, rfl⟩
    | some j => exact ⟨_, rfl⟩
  · intro fd
    cases fd with
    | none => simp [mainTrace]
    | some j =>
      simp only [mainTrace]
      cases hl : load_dataset j with
      | error e => simp [hl]
      | ok items =>
        cases hp : processItems items with
        | error e => simp [hl, hp]
        | ok cm =>
          obtain ⟨cs, ms⟩ := cm
          cases cs with
          | nil => simp [hl, hp]
          | cons a t => simp [hl, hp]
-- Sanity checks of the embedding on concrete inputs.
example : chunk_text "" 10 5 = [] := by decide
example : chunk_text "ana are mere." 750 120 = ["ana are mere."] := by decide
example : chunk_text "ab. cd. ef." 7 0 = ["ab. cd.", "ef."] := by decide
example :
    chunk_text "aaaaaaaaa. bbbbbbbbb. c" 10 5 =
      ["aaaaaaaaa.", "aaaa. bbbbbbbbb.", "bbbb. c"] := by decide

-- Sanity checks of the rerank embedding on concrete inputs.  (The rational
-- arithmetic of Batteries is irreducible by design; it is unsealed locally so
-- that the kernel can evaluate these closed facts.)
example : _norm_words "Ana, are-mere_2!" = ["ana", "are", "mere_2"] := by decide

unseal Rat.add Rat.mul Rat.inv Rat.ofScientific Rat.sub in
example : _lexical_overlap_score "cat" "cat cat" = 2 / 6 := by decide

example : _lexical_overlap_score "" "cat" = 0 := by decide

unseal Rat.add Rat.mul Rat.inv Rat.ofScientific Rat.sub in
example :
    itemScore "dune" "x" { title := some "Dune", author := none, themes := none } 1 =
      0.20 := by decide

unseal Rat.add Rat.mul Rat.inv Rat.ofScientific Rat.sub in
example :
    itemScore "a b" "x" { title := none, author := some "B", themes := some "a, c" } 1 =
      0.04 + 0.06 := by decide

-- Sanity checks of the ingestion embedding.
example : load_dataset (.str "x") = .error .formatError := rfl
example : load_dataset (.list [.int 1]) = .ok [.int 1] := rfl
example :
    load_dataset (.dict [("books", .list [.str "b"])]) = .ok [.str "b"] := rfl
example :
    load_dataset (.dict [("Dune", .str " epic ")]) =
      .ok [.dict [("title", .str "Dune"), ("author", .str ""),
        ("themes", .list []), ("year", .str ""), ("summary_full", .str "epic")]] := rfl
example : load_dataset (.dict [("k", .int 3)]) = .error .formatError := rfl
example :
    processItem (.dict [("title", .str "T"), ("themes", .list [.str "a", .str "b"]),
      ("summary", .str "s.")]) =
      .ok (["s."],
        [[("title", PyVal.str "T"), ("author", PyVal.str ""),
          ("themes", PyVal.str "a, b"), ("year", PyVal.str ""),
          ("language", PyVal.str "ro"), ("chunk", PyVal.int 0),
          ("chunks_total", PyVal.int 1)]]) := rfl
example :
    mainTrace (some (.list [])) =
      [.makedirs, .reset, .readDataset, .logNoContent] := rfl
example : mainTrace Option.none = [.makedirs, .reset, .readDataset] := rfl
